import Mathlib

/-!
Shallow embedding of `scar/providers/aws/lambdalayers.py`, the Lambda
supervisor-layer management module of the `scar` project.

Python dicts returned by the platform registry are modelled as structures
whose fields are `Option` values: an absent key is `none`.  Dict truthiness
(`if layer_info and ...`) is "some key is present".  Functions that can raise
return `Option` or `Except`.  Definitions marked `Modelled from the spec:`
embed repository code that is not under `src/` (`scar.utils.FileUtils`,
`scar.utils.StrUtils.compare_versions`, `scar.http.request`, and the
`LambdaClient` wrapper), following the words of the design spec.
-/

set_option autoImplicit false

/-- The `LatestMatchingVersion` dict of a layer record, holding the keys
`Version`, `Description` and `LayerVersionArn`; any of them may be absent. -/
structure VersionInfo where
  Version : Option Int
  Description : Option String
  LayerVersionArn : Option String
deriving Repr, DecidableEq

/-- The empty dict, returned by `get_latest_layer_info` when no layer record
matches. -/
def VersionInfo.empty : VersionInfo := ⟨none, none, none⟩

/-- Python truthiness of a version-info dict: at least one key is present. -/
def VersionInfo.truthy (i : VersionInfo) : Bool :=
  i.Version.isSome || i.Description.isSome || i.LayerVersionArn.isSome

/-- One record of the `list_layers()` listing: `LayerName` plus the embedded
`LatestMatchingVersion` dict.  `LayerName` may be absent, because the source
reads it defensively with a defaulted lookup (line 73). -/
structure LayerRecord where
  LayerName : Option String
  LatestMatchingVersion : VersionInfo
deriving Repr, DecidableEq

/-- The registry state, as observed through the `list_layers()` call of the
platform client: the sequence of layer records it returns. -/
abbrev Registry := List LayerRecord

/-- `Layer._find` (lines 70 to 75): linear scan of `list_layers()` for the
first record whose defaulted `LayerName` equals the requested name; the
`none` result stands for the empty dict returned when no record matches. -/
def Layer_find : Registry → String → Option LayerRecord
  | [], _ => none
  | l :: rest, layer_name =>
    if l.LayerName.getD "" = layer_name then some l else Layer_find rest layer_name

/-- `Layer.exists` (lines 81 to 85): true when the dict returned by `_find`
is truthy.  A found record always holds its `LatestMatchingVersion` key in
this model, hence is a non-empty dict; the empty-dict result is falsy. -/
def Layer_exists (reg : Registry) (layer_name : String) : Bool :=
  (Layer_find reg layer_name).isSome

/-- `Layer.get_latest_layer_info` (lines 97 to 100): the
`LatestMatchingVersion` dict of the found record, or the empty dict when the
found result is falsy. -/
def get_latest_layer_info (reg : Registry) (layer_name : String) : VersionInfo :=
  match Layer_find reg layer_name with
  | some l => l.LatestMatchingVersion
  | none => VersionInfo.empty

/-- A Python value passed as the `version` keyword argument of
`Layer.delete`. -/
inductive PyArg
  | int (n : Int)
  | str (s : String)
deriving Repr, DecidableEq

/-- Accumulator pass of decimal parsing: consumes digits, rejecting any
non-digit character. -/
def charsToNatAux : List Char → Nat → Option Nat
  | [], acc => some acc
  | c :: cs, acc =>
    if c.isDigit then charsToNatAux cs (acc * 10 + (c.toNat - 48)) else none

/-- Reads a non-empty all-digit character list as a natural number. -/
def charsToNat : List Char → Option Nat
  | [] => none
  | c :: cs => charsToNatAux (c :: cs) 0

/-- Removes leading and trailing whitespace from a character list. -/
def stripSpaces (cs : List Char) : List Char :=
  ((cs.dropWhile Char.isWhitespace).reverse.dropWhile Char.isWhitespace).reverse

/-- Modelled from Python: `int(...)` applied to a string parses an
optionally signed decimal numeral, surrounding whitespace allowed; anything
else raises `ValueError`, modelled as `none`. -/
def pyIntStr (s : String) : Option Int :=
  match stripSpaces s.data with
  | '-' :: rest => (charsToNat rest).map (fun n => -(n : Int))
  | '+' :: rest => (charsToNat rest).map (fun n => (n : Int))
  | cs => (charsToNat cs).map (fun n => (n : Int))

/-- Modelled from Python: the built-in `int(...)` coercion applied at
line 91.  An `int` is returned unchanged; a string is parsed as a signed
decimal numeral; a non-numeric string raises `ValueError` (`none`). -/
def pyInt : PyArg → Option Int
  | .int n => some n
  | .str s => pyIntStr s

/-- The argument pair handed to the `delete_layer_version` registry call. -/
structure DeleteCall where
  LayerName : String
  VersionNumber : Int
deriving Repr, DecidableEq

/-- `Layer.delete` (lines 87 to 95): returns the single
`delete_layer_version` call issued, or `none` when the `int(...)` coercion
raises before any registry call is made.  When no `version` keyword is
passed, the version number is looked up via `get_latest_layer_info`,
defaulting to the sentinel `-1`. -/
def Layer_delete (reg : Registry) (name : String) (version : Option PyArg) :
    Option DeleteCall :=
  match version with
  | some v =>
    match pyInt v with
    | some n => some ⟨name, n⟩
    | none => none
  | none => some ⟨name, (get_latest_layer_info reg name).Version.getD (-1)⟩

/-- `LambdaLayers.get_latest_supervisor_layer_arn` (lines 139 to 142): the
defaulted `LayerVersionArn` lookup on the latest layer info. -/
def get_latest_supervisor_layer_arn (reg : Registry) (layer_name : String) : String :=
  (get_latest_layer_info reg layer_name).LayerVersionArn.getD ""

/-- Splits a character list at every occurrence of the separator; an empty
input yields one empty group, matching the Python `str.split` behaviour with
an explicit separator. -/
def splitChars (sep : Char) : List Char → List (List Char)
  | [] => [[]]
  | c :: cs =>
    match splitChars sep cs with
    | [] => [[c]]
    | g :: gs => if c = sep then [] :: g :: gs else (c :: g) :: gs

/-- Modelled from the spec: `StrUtils.compare_versions` is not under `src/`.
Section 3 requires version strings to be totally ordered by a
semantic-version-like comparison, so a version string is read as its
dot-separated numeric components (a non-numeric component counts as zero). -/
def versionComponents (s : String) : List Nat :=
  (splitChars '.' s.data).map (fun cs => (charsToNat cs).getD 0)

/-- Modelled from the spec: lexicographic comparison of numeric component
lists; missing trailing components count as zero, and the result is negative,
zero or positive in the lower, equal or greater case. -/
def compareComponents : List Nat → List Nat → Int
  | [], bs => if bs.all (fun b => b == 0) then 0 else -1
  | a :: as, [] => if (a :: as).all (fun x => x == 0) then 0 else 1
  | a :: as, b :: bs =>
    if a < b then -1 else if b < a then 1 else compareComponents as bs

/-- Modelled from the spec: the version comparison used at line 153,
returning a negative, zero or positive value. -/
def compare_versions (v1 v2 : String) : Int :=
  compareComponents (versionComponents v1) (versionComponents v2)

/-- Modelled from the spec: the `publish_layer_version` wrapper of the
platform client is not under `src/`.  Section 6: publishing always creates a
new version, and the listing afterwards reports it as the latest matching
version for that name.  `newVersion` and `newArn` are the registry-chosen
version number and artifact identifier of the new version; a name with no
record gains one. -/
def publish_layer_version (reg : Registry) (name desc : String)
    (newVersion : Int) (newArn : String) : Registry :=
  if reg.any (fun l => l.LayerName.getD "" == name) then
    reg.map (fun l =>
      if l.LayerName.getD "" = name then
        { l with LatestMatchingVersion := ⟨some newVersion, some desc, some newArn⟩ }
      else l)
  else
    reg ++ [⟨some name, ⟨some newVersion, some desc, some newArn⟩⟩]

/-- The registry-facing effect of `LambdaLayers._create_layer`
(lines 119 to 127): exactly one publish call, whose `Description` is the
supervisor version (line 115).  Returns the new registry state and the list
of published descriptions. -/
def create_layer_publish (reg : Registry) (layer_name supervisor_version : String)
    (newVersion : Int) (newArn : String) : Registry × List String :=
  (publish_layer_version reg layer_name supervisor_version newVersion newArn,
   [supervisor_version])

/-- The branch taken by `check_faas_supervisor_layer`. -/
inductive Branch
  | create
  | update
  | noop
deriving Repr, DecidableEq

/-- Observable outcome of one `check_faas_supervisor_layer` call: the
registry afterwards, the descriptions published (in order), and the branch
taken. -/
structure CheckResult where
  registry : Registry
  published : List String
  branch : Branch
deriving Repr, DecidableEq

/-- `LambdaLayers.check_faas_supervisor_layer` (lines 144 to 160), as a state
transformer on the registry.  The guard is the literal translation of
`if layer_info and (member) Description in layer_info`; the comparison reads
the description with a defaulted lookup, as at line 153. -/
def check_faas_supervisor_layer (reg : Registry) (layer_name supervisor_version : String)
    (newVersion : Int) (newArn : String) : CheckResult :=
  let layer_info := get_latest_layer_info reg layer_name
  if layer_info.truthy && layer_info.Description.isSome then
    if compare_versions (layer_info.Description.getD "") supervisor_version < 0 then
      let p := create_layer_publish reg layer_name supervisor_version newVersion newArn
      ⟨p.1, p.2, Branch.update⟩
    else
      ⟨reg, [], Branch.noop⟩
  else
    let p := create_layer_publish reg layer_name supervisor_version newVersion newArn
    ⟨p.1, p.2, Branch.create⟩

/-- The three-outcome decision procedure in the words of the spec: Absent
(no record, or its latest-version info lacks a description) runs the create
flow; Stale (description strictly below the desired version) runs the update
flow; Current does nothing.  Written for comparison with
`check_faas_supervisor_layer`. -/
def specDecision (reg : Registry) (layer_name supervisor_version : String)
    (newVersion : Int) (newArn : String) : CheckResult :=
  match Layer_find reg layer_name with
  | none =>
    ⟨publish_layer_version reg layer_name supervisor_version newVersion newArn,
     [supervisor_version], Branch.create⟩
  | some l =>
    match l.LatestMatchingVersion.Description with
    | none =>
      ⟨publish_layer_version reg layer_name supervisor_version newVersion newArn,
       [supervisor_version], Branch.create⟩
    | some d =>
      if compare_versions d supervisor_version < 0 then
        ⟨publish_layer_version reg layer_name supervisor_version newVersion newArn,
         [supervisor_version], Branch.update⟩
      else
        ⟨reg, [], Branch.noop⟩

/-- Error classes of the fetch step, from the spec taxonomy (section 7):
`FetchError` for a failed remote retrieval, `ArchiveFormatError` for a
malformed or unexpectedly laid out archive. -/
inductive DlError
  | FetchError
  | ArchiveFormatError
deriving Repr, DecidableEq

/-- Bool test: the first character list begins with the second. -/
def charsStartWith : List Char → List Char → Bool
  | _, [] => true
  | [], _ :: _ => false
  | c :: cs, p :: ps => c == p && charsStartWith cs ps

/-- Modelled from Python: splitting a character list at the first slash;
`none` when no slash occurs. -/
def splitFirstSlash : List Char → Option (List Char × List Char)
  | [] => none
  | c :: cs =>
    if c = '/' then some ([], cs)
    else
      match splitFirstSlash cs with
      | none => none
      | some (p, r) => some (c :: p, r)

/-- Modelled from Python: `file.split("/", 1)` destructured into two names
(line 42); `none` stands for the `ValueError` raised by the unpacking when
the entry name holds no slash. -/
def splitParent (file : String) : Option (String × String) :=
  match splitFirstSlash file.data with
  | none => none
  | some (p, r) => some (String.mk p, String.mk r)

/-- The extraction test of line 43: the stripped name starts with the plain
string "extra" or the plain string "faassupervisor" (string prefixes, not
path components). -/
def entryExtracted (file_name : String) : Bool :=
  charsStartWith file_name.data "extra".data ||
    charsStartWith file_name.data "faassupervisor".data

/-- The namelist loop of `_download_supervisor` (lines 40 to 44): walks the
entries in order, accumulating the extracted names and remembering the
parent folder of the entry seen last; aborts with the archive-format error
at the first entry holding no slash. -/
def downloadLoop : List String → List String → Option String →
    Except DlError (List String × Option String)
  | [], acc, pf => Except.ok (acc, pf)
  | f :: rest, acc, _ =>
    match splitParent f with
    | none => Except.error DlError.ArchiveFormatError
    | some (p, fname) =>
      downloadLoop rest (if entryExtracted fname then acc ++ [f] else acc) (some p)

/-- Input of the fetch step: either the remote retrieval fails, or it yields
bytes that parse as a zip with the given namelist (`none` when the bytes are
not a zip archive). -/
inductive FetchInput
  | unreachable
  | bytes (parsed : Option (List String))
deriving Repr, DecidableEq

/-- `_download_supervisor` (lines 34 to 45): returns the extracted entry
names, in namelist order, and the parent folder stripped from the entry seen
last.  Modelled from the spec for the parts not under `src/`: a failing
`request.get_file` is a `FetchError` (section 7), and the exceptions raised
on a non-zip body, on an empty namelist (the loop variable is then unbound
at line 45) and on an entry with no slash are classed as
`ArchiveFormatError`. -/
def _download_supervisor (input : FetchInput) : Except DlError (List String × String) :=
  match input with
  | FetchInput.unreachable => Except.error DlError.FetchError
  | FetchInput.bytes none => Except.error DlError.ArchiveFormatError
  | FetchInput.bytes (some names) =>
    match downloadLoop names [] none with
    | Except.error e => Except.error e
    | Except.ok (_, none) => Except.error DlError.ArchiveFormatError
    | Except.ok (acc, some p) => Except.ok (acc, p)

/-- The extraction rule in the words of the spec and of claim C3: keep
exactly the entries whose stripped path begins with the path component
"extra/" or "faassupervisor/". -/
def specExtracted (names : List String) : List String :=
  names.filter (fun f =>
    match splitParent f with
    | some (_, fname) =>
      charsStartWith fname.data "extra/".data ||
        charsStartWith fname.data "faassupervisor/".data
    | none => false)

/-- The extraction rule actually applied by the loop, as a plain filter over
the namelist. -/
def codeExtracted (names : List String) : List String :=
  names.filter (fun f =>
    match splitParent f with
    | some (_, fname) => entryExtracted fname
    | none => false)

/-- Contents of a file in the downloaded archive: ordinary bytes, or bytes
that themselves parse as a zip archive holding the given entry paths. -/
inductive FileData
  | plain
  | zipData (entries : List (List String))
deriving Repr, DecidableEq

/-- A directory tree (or an archive listing): each file as its path
segments paired with its contents. -/
abbrev FsTree := List (List String × FileData)

/-- Splits a raw entry name into its path segments. -/
def pathSegments (file : String) : List String :=
  (splitChars '/' file.data).map String.mk

/-- Contents of the extraction directory after a successful
`_download_supervisor` run: every entry passing the extraction test of
line 43 keeps its full in-archive path below `tmp_zip_path`
(`ZipFile.extract` preserves it), here split into segments. -/
def extractToTmp (archive : List (String × FileData)) : FsTree :=
  (archive.filter (fun e =>
    match splitParent e.1 with
    | some (_, fname) => entryExtracted fname
    | none => false)).map (fun e => (pathSegments e.1, e.2))

/-- `_copy_supervisor_files` (lines 48 to 50): the subtree rooted at
`tmp/parent/faassupervisor` moves to `code/python/faassupervisor`, the
`python` segment inserted as required by the runtime
(`FileUtils.join_paths` modelled from the spec as path concatenation). -/
def _copy_supervisor_files (parent : String) (tmp : FsTree) : FsTree :=
  tmp.filterMap (fun e =>
    match e.1 with
    | p :: q :: rest =>
      if p == parent && q == "faassupervisor" then
        some ("python" :: "faassupervisor" :: rest, e.2)
      else none
    | _ => none)

/-- `_copy_extra_files` (lines 53 to 57), with
`FileUtils.get_all_files_in_directory` and `FileUtils.unzip_folder` modelled
from the spec (section 4.2): every file found below `tmp/parent/extra` is
expanded as an archive directly into the root of the code directory;
`none` stands for the error raised when such a file is not an archive. -/
def _copy_extra_files (parent : String) (tmp : FsTree) : Option FsTree :=
  let extraFiles := tmp.filter (fun e =>
    match e.1 with
    | p :: q :: _ :: _ => p == parent && q == "extra"
    | _ => false)
  if extraFiles.all (fun e =>
      match e.2 with
      | FileData.zipData _ => true
      | FileData.plain => false) then
    some (extraFiles.foldr (fun e acc =>
      (match e.2 with
       | FileData.zipData entries => entries.map (fun q => (q, FileData.plain))
       | FileData.plain => []) ++ acc) [])
  else none

/-- `_create_layer_zip` (lines 60 to 61), with `FileUtils.zip_folder`
modelled from the spec: the produced archive lists the code tree with its
relative paths preserved. -/
def _create_layer_zip (code : FsTree) : FsTree := code

/-- The packaging pipeline of `_create_layer` (lines 119 to 127) on the
success path: download and extract, move the supervisor subtree below
`python/`, expand the extra archives into the root, zip the code tree.
Returns the contents of the final layer archive. -/
def create_layer_package (archive : List (String × FileData)) : Option FsTree :=
  match _download_supervisor (FetchInput.bytes (some (archive.map Prod.fst))) with
  | Except.error _ => none
  | Except.ok (_, parent_folder) =>
    let tmp := extractToTmp archive
    let code := _copy_supervisor_files parent_folder tmp
    match _copy_extra_files parent_folder tmp with
    | some extraEntries => some (_create_layer_zip (code ++ extraEntries))
    | none => none

/-- The statements of `_create_layer` (lines 119 to 127), in program
order. -/
inductive LayerStep
  | createTmpFolders
  | downloadSupervisor
  | copySupervisorFiles
  | copyExtraFiles
  | createLayerZip
  | publishLayer
  | deleteLayerZip
deriving Repr, DecidableEq

/-- The statement order of `_create_layer`: the deletion of the output
archive is the last statement, after the publish call. -/
def create_layer_steps : List LayerStep :=
  [LayerStep.createTmpFolders, LayerStep.downloadSupervisor,
   LayerStep.copySupervisorFiles, LayerStep.copyExtraFiles,
   LayerStep.createLayerZip, LayerStep.publishLayer, LayerStep.deleteLayerZip]

/-- Effect of one statement on whether the output archive at
`{tmp-root}/{layer_name}.zip` exists on disk: the zip step writes it, the
delete step removes it, every other statement leaves it alone. -/
def stepArchive (present : Bool) : LayerStep → Bool
  | LayerStep.createLayerZip => true
  | LayerStep.deleteLayerZip => false
  | _ => present

/-- Runs the statements in order; a failing statement raises and aborts the
attempt there, with no local handling (spec section 7).  Returns whether the
attempt succeeded and whether the output archive is on disk afterwards. -/
def run_create_layer_go (fails : LayerStep → Bool) :
    List LayerStep → Bool → Bool × Bool
  | [], present => (true, present)
  | s :: rest, present =>
    if fails s then (false, present)
    else run_create_layer_go fails rest (stepArchive present s)

/-- One `_create_layer` attempt, starting with no output archive on disk. -/
def run_create_layer (fails : LayerStep → Bool) : Bool × Bool :=
  run_create_layer_go fails create_layer_steps false

theorem compareComponents_self (l : List Nat) : compareComponents l l = 0 := by
  induction l with
  | nil => simp [compareComponents]
  | cons a as ih => simp [compareComponents, ih]

theorem compare_versions_self (s : String) : compare_versions s s = 0 := by
  unfold compare_versions
  exact compareComponents_self _

theorem Layer_find_map_update (reg : Registry) (name : String) (i : VersionInfo)
    (h : reg.any (fun l => l.LayerName.getD "" == name) = true) :
    ∃ ln, Layer_find
      (reg.map (fun l =>
        if l.LayerName.getD "" = name then { l with LatestMatchingVersion := i } else l))
      name = some ⟨ln, i⟩ := by
  induction reg with
  | nil => simp at h
  | cons l rest ih =>
    by_cases hl : l.LayerName.getD "" = name
    · exact ⟨l.LayerName, by simp [Layer_find, hl]⟩
    · have h' : rest.any (fun l => l.LayerName.getD "" == name) = true := by
        simpa [List.any_cons, hl] using h
      obtain ⟨ln, hln⟩ := ih h'
      exact ⟨ln, by simp [Layer_find, hl, hln]⟩

theorem Layer_find_append_new (reg : Registry) (name : String) (i : VersionInfo)
    (h : reg.any (fun l => l.LayerName.getD "" == name) = false) :
    Layer_find (reg ++ [⟨some name, i⟩]) name = some ⟨some name, i⟩ := by
  induction reg with
  | nil => simp [Layer_find]
  | cons l rest ih =>
    have hl : ¬ l.LayerName.getD "" = name := by
      intro hc
      simp [List.any_cons, hc] at h
    have h' : rest.any (fun l => l.LayerName.getD "" == name) = false := by
      simpa [List.any_cons, hl] using h
    simp [Layer_find, hl, ih h']

theorem get_latest_after_publish (reg : Registry) (name desc : String)
    (v : Int) (a : String) :
    get_latest_layer_info (publish_layer_version reg name desc v a) name =
      ⟨some v, some desc, some a⟩ := by
  unfold publish_layer_version
  cases h : reg.any (fun l => l.LayerName.getD "" == name) with
  | true =>
    obtain ⟨ln, hln⟩ := Layer_find_map_update reg name ⟨some v, some desc, some a⟩ h
    simp [get_latest_layer_info, h, hln]
  | false =>
    simp [get_latest_layer_info, h,
      Layer_find_append_new reg name ⟨some v, some desc, some a⟩ h]

theorem check_current (reg : Registry) (n ver : String) (v : Int) (a : String)
    (d : String) (hd : (get_latest_layer_info reg n).Description = some d)
    (hcmp : ¬ compare_versions d ver < 0) :
    check_faas_supervisor_layer reg n ver v a = ⟨reg, [], Branch.noop⟩ := by
  unfold check_faas_supervisor_layer
  simp [VersionInfo.truthy, hd, hcmp]

/-- C1: for every registry state and desired version,
`check_faas_supervisor_layer` follows the three-outcome decision procedure:
no record, or a latest-version info lacking a `Description` field, runs the
create flow (one publish whose description is the desired version); a
description comparing strictly below the desired version runs the update
flow (one publish, same description); otherwise nothing is published and
the registry is left unchanged. -/
theorem check_faas_supervisor_layer_three_outcomes
    (reg : Registry) (layer_name supervisor_version : String)
    (newVersion : Int) (newArn : String) :
    check_faas_supervisor_layer reg layer_name supervisor_version newVersion newArn =
      specDecision reg layer_name supervisor_version newVersion newArn := by
  unfold check_faas_supervisor_layer specDecision
  cases hf : Layer_find reg layer_name with
  | none =>
    simp [get_latest_layer_info, hf, VersionInfo.empty, VersionInfo.truthy,
      create_layer_publish]
  | some l =>
    cases hd : l.LatestMatchingVersion.Description with
    | none => simp [get_latest_layer_info, hf, hd, create_layer_publish]
    | some d =>
      simp [get_latest_layer_info, hf, hd, VersionInfo.truthy, create_layer_publish]

/-- C6: `check_faas_supervisor_layer` is idempotent for unchanged inputs:
run twice with the same desired version and no intervening registry
mutation, it publishes at most once in total, and the second run takes the
Current no-op branch. -/
theorem check_faas_supervisor_layer_idempotent
    (reg : Registry) (layer_name supervisor_version : String)
    (v1 : Int) (a1 : String) (v2 : Int) (a2 : String) :
    (check_faas_supervisor_layer
        (check_faas_supervisor_layer reg layer_name supervisor_version v1 a1).registry
        layer_name supervisor_version v2 a2).branch = Branch.noop ∧
    (check_faas_supervisor_layer reg layer_name supervisor_version v1 a1).published.length +
      (check_faas_supervisor_layer
        (check_faas_supervisor_layer reg layer_name supervisor_version v1 a1).registry
        layer_name supervisor_version v2 a2).published.length ≤ 1 := by
  have hpub : ∀ (v : Int) (a : String),
      check_faas_supervisor_layer
        (publish_layer_version reg layer_name supervisor_version v a)
        layer_name supervisor_version v2 a2 =
      ⟨publish_layer_version reg layer_name supervisor_version v a, [],
        Branch.noop⟩ := by
    intro v a
    refine check_current _ _ _ _ _ supervisor_version ?_ ?_
    · rw [get_latest_after_publish]
    · rw [compare_versions_self]
      exact lt_irrefl 0
  by_cases h1 : ((get_latest_layer_info reg layer_name).truthy &&
      (get_latest_layer_info reg layer_name).Description.isSome) = true
  · by_cases h2 : compare_versions
        ((get_latest_layer_info reg layer_name).Description.getD "")
        supervisor_version < 0
    · have hfirst : check_faas_supervisor_layer reg layer_name supervisor_version v1 a1 =
          ⟨publish_layer_version reg layer_name supervisor_version v1 a1,
            [supervisor_version], Branch.update⟩ := by
        unfold check_faas_supervisor_layer
        simp [h1, h2, create_layer_publish]
      rw [hfirst]
      simp [hpub]
    · have hds : (get_latest_layer_info reg layer_name).Description.isSome = true := by
        rw [Bool.and_eq_true] at h1
        exact h1.2
      obtain ⟨d, hd⟩ := Option.isSome_iff_exists.mp hds
      have hcmp : ¬ compare_versions d supervisor_version < 0 := by
        intro hc
        apply h2
        rw [hd]
        simpa using hc
      have hfirst := check_current reg layer_name supervisor_version v1 a1 d hd hcmp
      have hsecond := check_current reg layer_name supervisor_version v2 a2 d hd hcmp
      rw [hfirst]
      simp [hsecond]
  · have h1f : ((get_latest_layer_info reg layer_name).truthy &&
        (get_latest_layer_info reg layer_name).Description.isSome) = false := by
      simpa using h1
    have hfirst : check_faas_supervisor_layer reg layer_name supervisor_version v1 a1 =
        ⟨publish_layer_version reg layer_name supervisor_version v1 a1,
          [supervisor_version], Branch.create⟩ := by
      unfold check_faas_supervisor_layer
      simp [h1f, create_layer_publish]
    rw [hfirst]
    simp [hpub]

theorem Layer_find_isSome_iff (reg : Registry) (name : String) :
    (Layer_find reg name).isSome = true ↔ ∃ l ∈ reg, l.LayerName.getD "" = name := by
  induction reg with
  | nil => simp [Layer_find]
  | cons l rest ih =>
    by_cases hl : l.LayerName.getD "" = name
    · simp [Layer_find, hl]
    · simp [Layer_find, hl, ih]

/-- C7: `exists(name)` is true exactly when `_find(name)` returns a
non-empty record (every listed record carries its latest-version dict, so a
found record is a non-empty dict), and false exactly when no listed record
carries that exact name. -/
theorem Layer_exists_iff_find (reg : Registry) (name : String) :
    (Layer_exists reg name = true ↔ (Layer_find reg name).isSome = true) ∧
    (Layer_exists reg name = false ↔ ¬ ∃ l ∈ reg, l.LayerName.getD "" = name) := by
  constructor
  · simp [Layer_exists]
  · rw [← Layer_find_isSome_iff]
    simp [Layer_exists]

/-- C5: `delete` with no version argument issues the registry delete with
the `Version` field of the latest layer info, defaulting to the sentinel
`-1` when no record exists (the call is still attempted); `delete` with an
explicit integer version issues the delete with exactly that number, for
every registry state. -/
theorem Layer_delete_version_resolution (reg : Registry) (name : String) (V : Int) :
    (Layer_find reg name = none → Layer_delete reg name none = some ⟨name, -1⟩) ∧
    (∀ l n, Layer_find reg name = some l →
      l.LatestMatchingVersion.Version = some n →
      Layer_delete reg name none = some ⟨name, n⟩) ∧
    Layer_delete reg name (some (PyArg.int V)) = some ⟨name, V⟩ := by
  refine ⟨?_, ?_, rfl⟩
  · intro h
    simp [Layer_delete, get_latest_layer_info, h, VersionInfo.empty]
  · intro l n hl hn
    simp [Layer_delete, get_latest_layer_info, hl, hn]

/-- Witness for C5: a concrete empty registry resolves the sentinel, a
concrete one-record registry resolves its version number, and an explicit
version is passed through. -/
theorem Layer_delete_version_resolution_witness :
    Layer_delete [] "sup" none = some ⟨"sup", -1⟩ ∧
    Layer_delete [⟨some "sup", ⟨some 3, some "1.4.0", some "arn3"⟩⟩] "sup" none =
      some ⟨"sup", 3⟩ ∧
    Layer_delete [] "sup" (some (PyArg.int 7)) = some ⟨"sup", 7⟩ :=
  ⟨(Layer_delete_version_resolution [] "sup" 7).1 rfl,
   (Layer_delete_version_resolution
      [⟨some "sup", ⟨some 3, some "1.4.0", some "arn3"⟩⟩] "sup" 7).2.1
      ⟨some "sup", ⟨some 3, some "1.4.0", some "arn3"⟩⟩ 3 rfl rfl,
   (Layer_delete_version_resolution [] "sup" 7).2.2⟩

/-- C9: `get_latest_supervisor_layer_arn` returns the empty string when no
record exists for the layer name, and the exact `LayerVersionArn` field of
the latest matching version of the found record otherwise. -/
theorem get_latest_supervisor_layer_arn_spec (reg : Registry) (name : String) :
    (Layer_find reg name = none → get_latest_supervisor_layer_arn reg name = "") ∧
    (∀ l a, Layer_find reg name = some l →
      l.LatestMatchingVersion.LayerVersionArn = some a →
      get_latest_supervisor_layer_arn reg name = a) := by
  constructor
  · intro h
    simp [get_latest_supervisor_layer_arn, get_latest_layer_info, h, VersionInfo.empty]
  · intro l a hl ha
    simp [get_latest_supervisor_layer_arn, get_latest_layer_info, hl, ha]

/-- Witness for C9: empty registry gives the empty string; a concrete
record gives its exact ARN field. -/
theorem get_latest_supervisor_layer_arn_spec_witness :
    get_latest_supervisor_layer_arn [] "sup" = "" ∧
    get_latest_supervisor_layer_arn
      [⟨some "sup", ⟨some 3, some "1.4.0", some "arnX"⟩⟩] "sup" = "arnX" :=
  ⟨(get_latest_supervisor_layer_arn_spec [] "sup").1 rfl,
   (get_latest_supervisor_layer_arn_spec
      [⟨some "sup", ⟨some 3, some "1.4.0", some "arnX"⟩⟩] "sup").2
      ⟨some "sup", ⟨some 3, some "1.4.0", some "arnX"⟩⟩ "arnX" rfl rfl⟩

/-- C10: an explicit `version` argument is coerced with `int(...)` before
the registry call; a convertible value is passed through as the integer it
denotes, and a non-convertible one raises before `delete_layer_version` is
ever invoked. -/
theorem Layer_delete_int_coercion (reg : Registry) (name : String) (v : PyArg) :
    (∀ n, pyInt v = some n → Layer_delete reg name (some v) = some ⟨name, n⟩) ∧
    (pyInt v = none → Layer_delete reg name (some v) = none) := by
  constructor
  · intro n hn
    simp [Layer_delete, hn]
  · intro hn
    simp [Layer_delete, hn]

/-- Witness for C10: the numeric string "7" is coerced to the integer 7,
and the non-numeric string "abc" aborts with no registry call. -/
theorem Layer_delete_int_coercion_witness :
    Layer_delete [] "sup" (some (PyArg.str "7")) = some ⟨"sup", 7⟩ ∧
    Layer_delete [] "sup" (some (PyArg.str "abc")) = none :=
  ⟨(Layer_delete_int_coercion [] "sup" (PyArg.str "7")).1 7 rfl,
   (Layer_delete_int_coercion [] "sup" (PyArg.str "abc")).2 rfl⟩

theorem downloadLoop_ok_extracts (ns : List String) :
    ∀ (acc : List String) (pf : Option String) (ex : List String) (pf' : Option String),
      downloadLoop ns acc pf = Except.ok (ex, pf') → ex = acc ++ codeExtracted ns := by
  induction ns with
  | nil =>
    intro acc pf ex pf' h
    simp only [downloadLoop, Except.ok.injEq, Prod.mk.injEq] at h
    simp [codeExtracted, h.1]
  | cons f rest ih =>
    intro acc pf ex pf' h
    simp only [downloadLoop] at h
    cases hsp : splitParent f with
    | none => rw [hsp] at h; cases h
    | some pr =>
      obtain ⟨p, fn⟩ := pr
      rw [hsp] at h
      have hex := ih _ _ _ _ h
      by_cases he : entryExtracted fn = true
      · rw [if_pos he] at hex
        simp only [codeExtracted, List.filter_cons, hsp, he]
        simpa [List.append_assoc] using hex
      · rw [if_neg he] at hex
        simp only [codeExtracted, List.filter_cons, hsp]
        simp only [Bool.not_eq_true] at he
        simpa [he] using hex

theorem downloadLoop_error_kind (ns : List String) :
    ∀ (acc : List String) (pf : Option String) (e : DlError),
      downloadLoop ns acc pf = Except.error e → e = DlError.ArchiveFormatError := by
  induction ns with
  | nil => intro acc pf e h; cases h
  | cons f rest ih =>
    intro acc pf e h
    simp only [downloadLoop] at h
    cases hsp : splitParent f with
    | none =>
      rw [hsp] at h
      simp only [Except.error.injEq] at h
      exact h.symm
    | some pr =>
      obtain ⟨p, fn⟩ := pr
      rw [hsp] at h
      exact ih _ _ _ h

theorem downloadLoop_error_of_noslash (ns : List String) :
    ∀ (acc : List String) (pf : Option String),
      (∃ f ∈ ns, splitParent f = none) →
      downloadLoop ns acc pf = Except.error DlError.ArchiveFormatError := by
  induction ns with
  | nil => intro acc pf h; simp at h
  | cons f rest ih =>
    intro acc pf h
    simp only [downloadLoop]
    cases hsp : splitParent f with
    | none => rfl
    | some pr =>
      obtain ⟨p, fn⟩ := pr
      apply ih
      rcases h with ⟨g, hg, hgs⟩
      rcases List.mem_cons.mp hg with rfl | hmem
      · rw [hsp] at hgs; cases hgs
      · exact ⟨g, hmem, hgs⟩

/-- Counterexample to C3: the loop keeps every entry whose stripped path
begins with the plain string "extra", so the sibling-prefixed entry
extras/doc.txt is extracted even though the claim says exactly the entries
under "extra/" or "faassupervisor/" are kept and such siblings are
discarded. -/
theorem download_supervisor_extracts_sibling_extras :
    _download_supervisor (FetchInput.bytes (some ["scar-1.5.0/extras/doc.txt"])) =
      Except.ok (["scar-1.5.0/extras/doc.txt"], "scar-1.5.0") ∧
    specExtracted ["scar-1.5.0/extras/doc.txt"] = [] :=
  ⟨rfl, rfl⟩

/-- C3 (amended): on every successful fetch, the extracted entries are
exactly those whose in-archive path, after stripping the top-level folder,
begins with the plain string "extra" or the plain string "faassupervisor"
(string prefixes, not path components: siblings such as extras/ are
extracted too), in namelist order and with their relative structure
preserved. -/
theorem download_supervisor_extract_filter (ns ex : List String) (p : String)
    (h : _download_supervisor (FetchInput.bytes (some ns)) = Except.ok (ex, p)) :
    ex = codeExtracted ns := by
  simp only [_download_supervisor] at h
  cases hdl : downloadLoop ns [] none with
  | error e => rw [hdl] at h; cases h
  | ok r =>
    obtain ⟨acc, pf⟩ := r
    rw [hdl] at h
    cases pf with
    | none => cases h
    | some q =>
      simp only [Except.ok.injEq, Prod.mk.injEq] at h
      rw [← h.1]
      simpa using downloadLoop_ok_extracts ns [] none acc (some q) hdl

/-- Witness for the amended C3: a concrete one-entry archive is extracted
and matches the string-prefix filter. -/
theorem download_supervisor_extract_filter_witness :
    ["scar-1.5.0/faassupervisor/main.py"] =
      codeExtracted ["scar-1.5.0/faassupervisor/main.py"] :=
  download_supervisor_extract_filter ["scar-1.5.0/faassupervisor/main.py"]
    ["scar-1.5.0/faassupervisor/main.py"] "scar-1.5.0" rfl

/-- C8: the fetch step fails with `FetchError` on a failed remote
retrieval, with `ArchiveFormatError` on an unparseable body, an empty
archive, or an archive holding an entry with no top-level folder separator,
and archive-shaped inputs never surface the fetch error kind. -/
theorem download_supervisor_error_classes :
    _download_supervisor FetchInput.unreachable = Except.error DlError.FetchError ∧
    _download_supervisor (FetchInput.bytes none) =
      Except.error DlError.ArchiveFormatError ∧
    _download_supervisor (FetchInput.bytes (some [])) =
      Except.error DlError.ArchiveFormatError ∧
    (∀ ns, (∃ f ∈ ns, splitParent f = none) →
      _download_supervisor (FetchInput.bytes (some ns)) =
        Except.error DlError.ArchiveFormatError) ∧
    (∀ parsed e, _download_supervisor (FetchInput.bytes parsed) = Except.error e →
      e = DlError.ArchiveFormatError) := by
  refine ⟨rfl, rfl, rfl, ?_, ?_⟩
  · intro ns h
    simp only [_download_supervisor]
    rw [downloadLoop_error_of_noslash ns [] none h]
  · intro parsed e h
    cases parsed with
    | none =>
      simp only [_download_supervisor, Except.error.injEq] at h
      exact h.symm
    | some ns =>
      simp only [_download_supervisor] at h
      cases hdl : downloadLoop ns [] none with
      | error e' =>
        rw [hdl] at h
        simp only [Except.error.injEq] at h
        rw [← h]
        exact downloadLoop_error_kind ns [] none e' hdl
      | ok r =>
        obtain ⟨acc, pf⟩ := r
        rw [hdl] at h
        cases pf with
        | none =>
          simp only [Except.error.injEq] at h
          exact h.symm
        | some q => cases h

/-- Witness for C8: a concrete entry with no slash aborts the fetch with
the archive-format error, and that is also the kind reported for that
archive-shaped input. -/
theorem download_supervisor_error_classes_witness :
    _download_supervisor (FetchInput.bytes (some ["noslash"])) =
      Except.error DlError.ArchiveFormatError ∧
    DlError.ArchiveFormatError = DlError.ArchiveFormatError :=
  ⟨download_supervisor_error_classes.2.2.2.1 ["noslash"] ⟨"noslash", by simp, rfl⟩,
   download_supervisor_error_classes.2.2.2.2 (some ["noslash"])
     DlError.ArchiveFormatError
     (download_supervisor_error_classes.2.2.2.1 ["noslash"] ⟨"noslash", by simp, rfl⟩)⟩

/-- C2: on the representative input archive whose stripped entries are
faassupervisor/a.py and extra/bundle.zip (itself holding b.txt), the create
flow packages a final archive holding exactly python/faassupervisor/a.py
and b.txt at its root, and nothing else from the original archive. -/
theorem create_layer_package_invariant :
    create_layer_package
      [("scarproj-1.5.0/faassupervisor/a.py", FileData.plain),
       ("scarproj-1.5.0/extra/bundle.zip", FileData.zipData [["b.txt"]])] =
      some [(["python", "faassupervisor", "a.py"], FileData.plain),
            (["b.txt"], FileData.plain)] := rfl

/-- Counterexample to C4: when the publish statement raises after packaging
succeeded, the attempt aborts with the output archive still on disk, so the
workspace is not fully removed on every failure path. -/
theorem create_layer_archive_remains_on_publish_failure :
    run_create_layer (fun s => s == LayerStep.publishLayer) = (false, true) := rfl

/-- C4 (amended): the output archive at {tmp-root}/{layer_name}.zip is
removed only on the success path: a fully successful attempt ends with the
archive deleted, while an attempt whose publish step raises after packaging
succeeded ends with the archive still on disk, the deletion being the final
statement and therefore skipped. -/
theorem create_layer_archive_cleanup (fails : LayerStep → Bool) :
    ((∀ s, fails s = false) → run_create_layer fails = (true, false)) ∧
    (fails LayerStep.publishLayer = true →
      (∀ s, s ≠ LayerStep.publishLayer → fails s = false) →
      run_create_layer fails = (false, true)) := by
  constructor
  · intro h
    simp [run_create_layer, run_create_layer_go, create_layer_steps, stepArchive, h]
  · intro hp ho
    have h1 : fails LayerStep.createTmpFolders = false := ho _ (by decide)
    have h2 : fails LayerStep.downloadSupervisor = false := ho _ (by decide)
    have h3 : fails LayerStep.copySupervisorFiles = false := ho _ (by decide)
    have h4 : fails LayerStep.copyExtraFiles = false := ho _ (by decide)
    have h5 : fails LayerStep.createLayerZip = false := ho _ (by decide)
    simp [run_create_layer, run_create_layer_go, create_layer_steps, stepArchive,
      hp, h1, h2, h3, h4, h5]

/-- Witness for the amended C4: the all-success run deletes the archive,
and the publish-failure run leaves it behind. -/
theorem create_layer_archive_cleanup_witness :
    run_create_layer (fun _ => false) = (true, false) ∧
    run_create_layer (fun s => s == LayerStep.publishLayer) = (false, true) :=
  ⟨(create_layer_archive_cleanup (fun _ => false)).1 (fun _ => rfl),
   (create_layer_archive_cleanup (fun s => s == LayerStep.publishLayer)).2 rfl
     (fun s hs => by cases s <;> simp_all)⟩

